import Mathlib

/-
Shallow embedding of the ledger reconciliation engine of the repository:
  src/github_stats/cache/manager.py      (CacheManager: cache_builder,
                                          _flush_cache, add_archive,
                                          force_close_file)
  src/github_stats/api/repo_processing.py (process_loc_for_repo)

Modelling conventions:
  - The cache file is a value of type `Option (List String)`; `none` models
    an absent file (Python FileNotFoundError on open for reading), `some lines`
    models a file whose `readlines()` result is `lines`.
  - `hashlib.sha256(...).hexdigest()` is abstracted as a parameter
    `hashFn : String → String`: every claim under study depends on the digest
    only through equality tests between a stored digest and a freshly computed
    one, never on the digest algorithm itself.
  - The remote GraphQL API is a `Remote`: the resolved identity of the tracked
    account (`config.owner_id`, resolved once per run) together with, for each
    repository index, the scripted sequence of responses the remote would give
    to the successive paginated history queries for that repository.  An
    `APIError` raised by `GitHubClient.execute_query` is the response
    `QueryResp.apiErr`.
  - Python exceptions that escape `cache_builder` are modelled by `Except`:
    `CBErr.apiError saved` is the re-raised APIError, carrying the file
    contents written by `force_close_file` just before the re-raise;
    `CBErr.valueError` is an unhandled ValueError/IndexError from parsing;
    `CBErr.scriptEnd` is a modelling artifact marking that a walk asked the
    remote for more responses than its script provides.
  - Machine integers are `Int` (Python ints are unbounded, so no wrap-around
    modelling is needed).
-/

namespace GhStats

/-- Whitespace characters recognised by Python `str.split()` that can occur
in the ledger and archive files. -/
def isWs (c : Char) : Bool :=
  c == ' ' || c == '\n' || c == '\t' || c == '\r'

/-- Character-level worker for `pySplit`: `cur` holds the reversed characters
of the token currently being read. -/
def pySplitAux : List Char → List Char → List String
  | [], cur => if cur.isEmpty then [] else [String.mk cur.reverse]
  | c :: rest, cur =>
    if isWs c then
      if cur.isEmpty then pySplitAux rest []
      else String.mk cur.reverse :: pySplitAux rest []
    else pySplitAux rest (c :: cur)

/-- Python `str.split()` with no separator: split on whitespace runs,
dropping empty pieces. -/
def pySplit (s : String) : List String :=
  pySplitAux s.data []

/-- Digit-string worker for `pyInt?`: every remaining character must be a
decimal digit. -/
def parseDigits : List Char → Nat → Option Nat
  | [], acc => some acc
  | c :: rest, acc =>
    if c.isDigit then parseDigits rest (acc * 10 + (c.toNat - 48)) else none

/-- Python `int(s)` on a whitespace-free token: an optional sign followed by
at least one decimal digit; anything else raises ValueError, modelled as
`none`. -/
def pyInt? (s : String) : Option Int :=
  match s.data with
  | [] => none
  | '-' :: rest =>
    if rest.isEmpty then none else (parseDigits rest 0).map fun n => -(n : Int)
  | '+' :: rest =>
    if rest.isEmpty then none else (parseDigits rest 0).map fun n => (n : Int)
  | cs => (parseDigits cs 0).map fun n => (n : Int)

/-- Character-level worker for `pySplitSlash`. -/
def splitSlashAux : List Char → List Char → List String
  | [], cur => [String.mk cur.reverse]
  | c :: rest, cur =>
    if c == '/' then String.mk cur.reverse :: splitSlashAux rest []
    else splitSlashAux rest (c :: cur)

/-- Python `s.split('/')`: split on every slash, keeping empty pieces. -/
def pySplitSlash (s : String) : List String :=
  splitSlashAux s.data []

/-- Python `s[:-1]`: the string without its final character (empty stays
empty). -/
def pyDropLast (s : String) : String :=
  ⟨s.data.dropLast⟩

/-- Python `str.isdigit()` for ASCII content: nonempty and all characters are
digits. -/
def pyIsDigit (s : String) : Bool :=
  !s.isEmpty && s.data.all Char.isDigit

/-- One commit of a fetched history page: the author's user identity (None for
commits with no linked account) and its additions/deletions counts.  Mirrors
the `node['node']` objects traversed by `process_loc_for_repo`. -/
structure Commit where
  authorUser : Option String
  additions : Int
  deletions : Int
deriving DecidableEq

/-- The `history` object of a fetched page: its commit edges and the
`pageInfo.hasNextPage` signal.  The continuation cursor is not modelled
explicitly: the per-repository response script already fixes which page each
successive query returns. -/
structure History where
  edges : List Commit
  hasNextPage : Bool
deriving DecidableEq

/-- One successfully parsed query response for `REPO_LOC_QUERY`:
`defaultBranchRef` is `none` when the repository has no default branch
(`repo_data['defaultBranchRef'] is None`). -/
structure Page where
  defaultBranchRef : Option History
deriving DecidableEq

/-- Outcome of one `GitHubClient.execute_query` call during a walk: either an
`APIError` or a parsed page. -/
inductive QueryResp where
  | apiErr : QueryResp
  | ok : Page → QueryResp
deriving DecidableEq

/-- The remote collaborator: the tracked account's resolved identity
(`config.owner_id`) and, per repository index, the scripted responses to the
successive history queries issued while walking that repository. -/
structure Remote where
  ownerId : Option String
  scripts : Nat → List QueryResp

/-- Replace the response script of repository index `i`.  Used to express
"the walker is never invoked for repository `i`": a run whose outcome is
unchanged under arbitrary replacement of script `i` never consulted it. -/
def setScript (rem : Remote) (i : Nat) (s : List QueryResp) : Remote :=
  { ownerId := rem.ownerId, scripts := fun j => if j = i then s else rem.scripts j }

/-- The author-filtering loop of `process_loc_for_repo` (repo_processing.py
lines 48-52): fold over a page's commit edges, counting a commit and adding
its additions/deletions exactly when its author identity equals the tracked
identity. -/
def accumPage (ownerId : Option String) :
    List Commit → Int → Int → Int → Int × Int × Int
  | [], a, d, m => (a, d, m)
  | c :: cs, a, d, m =>
    if c.authorUser = ownerId then
      accumPage ownerId cs (a + c.additions) (d + c.deletions) (m + 1)
    else
      accumPage ownerId cs a d m

/-- `process_loc_for_repo` (repo_processing.py lines 8-73).  The successive
query responses are consumed from the script list; `data` and `cache_comment`
are the ledger lines threaded through for `force_close_file`.  Result:
`none` when the script is exhausted before the walk finishes (modelling
artifact), `some (Except.error saved)` when a query fails with APIError —
`saved` being the file contents `cache_comment ++ data` that
`force_close_file` writes before the error is re-raised — and
`some (Except.ok (additions, deletions, myCommits))` on normal completion. -/
def process_loc_for_repo (ownerId : Option String)
    (data cache_comment : List String) :
    List QueryResp → Int → Int → Int →
      Option (Except (List String) (Int × Int × Int))
  | [], _, _, _ => none
  | QueryResp.apiErr :: _, _, _, _ =>
    some (Except.error (cache_comment ++ data))
  | QueryResp.ok p :: rest, a, d, m =>
    match p.defaultBranchRef with
    | none => some (Except.ok (a, d, m))
    | some h =>
      let acc := accumPage ownerId h.edges a d m
      if !h.edges.isEmpty && h.hasNextPage then
        process_loc_for_repo ownerId data cache_comment rest acc.1 acc.2.1 acc.2.2
      else
        some (Except.ok acc)

/-- One element of the repository list (`edges` in manager.py):
`nameWithOwner` is the qualified `owner/name`, and `totalCount` is
`node['defaultBranchRef']['target']['history']['totalCount']`, `none` when
`defaultBranchRef` is JSON null (so that the access raises TypeError, caught
at manager.py line 94). -/
structure Edge where
  nameWithOwner : String
  totalCount : Option Nat
deriving DecidableEq

/-- Exceptions escaping `cache_builder`: a re-raised `APIError` (carrying the
file contents written by `force_close_file` before the re-raise), an
unhandled ValueError/IndexError from parsing, or exhaustion of a walk's
response script (modelling artifact). -/
inductive CBErr where
  | apiError : List String → CBErr
  | valueError : CBErr
  | scriptEnd : CBErr
deriving DecidableEq

/-- The placeholder comment line written when the cache file does not yet
exist (manager.py lines 65 and 128). -/
def placeholderLine : String :=
  "This line is a comment block. Write whatever you want here.\n"

/-- The zero sentinel record written for one repository by `_flush_cache`
(manager.py line 135). -/
def sentinelLine (hashFn : String → String) (e : Edge) : String :=
  hashFn e.nameWithOwner ++ " 0 0 0 0\n"

/-- The read-or-create step of `cache_builder` (manager.py lines 58-67): the
lines read from the cache file, where an absent file is created holding
`comment_size` placeholder comment lines. -/
def readData (file0 : Option (List String)) (comment_size : Nat) : List String :=
  match file0 with
  | some lines => lines
  | none => List.replicate comment_size placeholderLine

/-- `CacheManager._flush_cache` (manager.py lines 110-135): the file contents
after wiping and recreating the cache — the first `comment_size` lines of the
existing file (placeholder comments when the file is absent) followed by one
zero sentinel record per repository, in list order. -/
def flush_cache (hashFn : String → String) (file : Option (List String))
    (edges : List Edge) (comment_size : Nat) : List String :=
  (match file with
   | some lines => lines.take comment_size
   | none => List.replicate comment_size placeholderLine)
  ++ edges.map (sentinelLine hashFn)

/-- The read-and-rebuild stage of `cache_builder` (manager.py lines 55-77):
returns the comment block `data[:comment_size]`, the record lines
`data[comment_size:]` on which reconciliation proceeds, and the `cached`
flag.  The record count is compared with the repository count in `Int`
arithmetic, as Python's `len(data) - comment_size` can be negative; when the
counts differ or `force_cache` is set, the file is truncated and rewritten by
`_flush_cache` and re-read, and `cached` is cleared. -/
def prepare (hashFn : String → String) (file0 : Option (List String))
    (edges : List Edge) (comment_size : Nat) (force_cache : Bool) :
    List String × List String × Bool :=
  let d0 := readData file0 comment_size
  let rebuild : Bool :=
    (((d0.length : Int) - (comment_size : Int)) != (edges.length : Int))
      || force_cache
  let d1 := if rebuild then flush_cache hashFn (some d0) edges comment_size else d0
  (d1.take comment_size, d1.drop comment_size, !rebuild)

/-- The body of `cache_builder`'s per-repository loop for index `idx`
(manager.py lines 80-95).  The record line is split and unpacked (ValueError
when it has fewer than two tokens); the stored digest is compared with the
digest freshly computed from the repository name; on a match, the live commit
total is read (`TypeError` from a missing default branch resets the record to
the zero sentinel), the stored total is parsed (ValueError when not numeric),
and on a difference the repository name is unpacked into owner and name
(ValueError unless exactly one slash) and the history walk is invoked, its
result replacing the record as
`hash liveTotal myCommits additions deletions`. -/
def stepRepo (hashFn : String → String) (rem : Remote) (e : Edge) (idx : Nat)
    (cache_comment data : List String) : Except CBErr (List String) :=
  match data[idx]? with
  | none => Except.error CBErr.valueError
  | some line =>
    match pySplit line with
    | repoHash :: commitCount :: _ =>
      if repoHash = hashFn e.nameWithOwner then
        match e.totalCount with
        | none => Except.ok (data.set idx (repoHash ++ " 0 0 0 0\n"))
        | some cc =>
          match pyInt? commitCount with
          | none => Except.error CBErr.valueError
          | some stored =>
            if stored = (cc : Int) then Except.ok data
            else
              match pySplitSlash e.nameWithOwner with
              | [_, _] =>
                match process_loc_for_repo rem.ownerId data cache_comment
                    (rem.scripts idx) 0 0 0 with
                | none => Except.error CBErr.scriptEnd
                | some (Except.error saved) => Except.error (CBErr.apiError saved)
                | some (Except.ok loc) =>
                  Except.ok (data.set idx
                    (repoHash ++ " " ++ toString cc ++ " " ++ toString loc.2.2
                      ++ " " ++ toString loc.1 ++ " " ++ toString loc.2.1 ++ "\n"))
              | _ => Except.error CBErr.valueError
      else Except.ok data
    | _ => Except.error CBErr.valueError

/-- The per-repository loop of `cache_builder` (manager.py lines 80-95),
processing the repositories `es` that sit at indices `idx, idx+1, ...` of the
record list. -/
def processRepos (hashFn : String → String) (rem : Remote) :
    List Edge → Nat → List String → List String → Except CBErr (List String)
  | [], _, _, data => Except.ok data
  | e :: rest, idx, cache_comment, data =>
    match stepRepo hashFn rem e idx cache_comment data with
    | Except.error err => Except.error err
    | Except.ok data1 => processRepos hashFn rem rest (idx + 1) cache_comment data1

/-- The additions and deletions fields of one record line: `int(loc[3])` and
`int(loc[4])` of the whitespace-split line; `none` models the
IndexError/ValueError raised when a field is missing or non-numeric (either
aborts the totals loop, manager.py lines 103-106). -/
def lineFields (line : String) : Option (Int × Int) :=
  match pySplit line with
  | _ :: _ :: _ :: t3 :: t4 :: _ =>
    match pyInt? t3, pyInt? t4 with
    | some x, some y => some (x, y)
    | _, _ => none
  | _ => none

/-- The totals loop of `cache_builder` (manager.py lines 103-106): fold the
parsed fourth and fifth fields of every record line onto the running
`loc_add` and `loc_del`. -/
def sumTotals : List String → Int → Int → Option (Int × Int)
  | [], loc_add, loc_del => some (loc_add, loc_del)
  | line :: rest, loc_add, loc_del =>
    match lineFields line with
    | some f => sumTotals rest (loc_add + f.1) (loc_del + f.2)
    | none => none

/-- Column-wise sums, from zero, of the additions and deletions fields over a
list of record lines.  This is the specification-side reading of "the
column-wise sums of the additions and deletions fields", to be compared with
the source's accumulator loop `sumTotals`. -/
def fieldSums : List String → Option (Int × Int)
  | [] => some (0, 0)
  | line :: rest =>
    match lineFields line, fieldSums rest with
    | some f, some s => some (f.1 + s.1, f.2 + s.2)
    | _, _ => none

/-- The reconciliation-and-totals stage of `cache_builder` (manager.py lines
79-108): run the per-repository loop over the record lines, write the file
(comment block followed by the reconciled records, lines 98-100), fold the
totals, and return the final file contents with the returned list
`[loc_add, loc_del, loc_add - loc_del, cached]`. -/
def reconcile (hashFn : String → String) (rem : Remote) (edges : List Edge)
    (cache_comment records : List String) (loc_add loc_del : Int)
    (cached : Bool) : Except CBErr (List String × (Int × Int × Int × Bool)) :=
  match processRepos hashFn rem edges 0 cache_comment records with
  | Except.error err => Except.error err
  | Except.ok dataF =>
    match sumTotals dataF loc_add loc_del with
    | none => Except.error CBErr.valueError
    | some s => Except.ok (cache_comment ++ dataF, (s.1, s.2, s.1 - s.2, cached))

/-- `CacheManager.cache_builder` (manager.py lines 34-108): the
read-and-rebuild stage followed by reconciliation. -/
def cache_builder (hashFn : String → String) (rem : Remote)
    (file0 : Option (List String)) (edges : List Edge) (comment_size : Nat)
    (force_cache : Bool) (loc_add loc_del : Int) :
    Except CBErr (List String × (Int × Int × Int × Bool)) :=
  let p := prepare hashFn file0 edges comment_size force_cache
  reconcile hashFn rem edges p.1 p.2.1 loc_add loc_del p.2.2

/-- Result of the record loop of `add_archive` (manager.py lines 155-160):
either the accumulated (additions, deletions, commits), or a caught
IndexError (a line whose fourth or fifth field is missing), or an uncaught
ValueError (a line with fewer than three tokens, or a non-numeric fourth or
fifth field). -/
inductive ArchLoop where
  | done : Int → Int → Int → ArchLoop
  | caught : ArchLoop
  | raised : ArchLoop
deriving DecidableEq

/-- The record loop of `add_archive` (manager.py lines 155-160): per line,
unpack `repo_hash, total_commits, my_commits, *loc` (ValueError under three
tokens), add `int(loc[0])` and `int(loc[1])` (IndexError when absent, caught;
ValueError when non-numeric, uncaught), and add `int(my_commits)` when it is
all digits. -/
def archSum : List String → Int → Int → Int → ArchLoop
  | [], a, d, c => ArchLoop.done a d c
  | line :: rest, a, d, c =>
    match pySplit line with
    | _ :: _ :: my_commits :: loc =>
      match loc[0]? with
      | none => ArchLoop.caught
      | some t0 =>
        match pyInt? t0 with
        | none => ArchLoop.raised
        | some x =>
          match loc[1]? with
          | none => ArchLoop.caught
          | some t1 =>
            match pyInt? t1 with
            | none => ArchLoop.raised
            | some y =>
              let c1 := if pyIsDigit my_commits then c + ((pyInt? my_commits).getD 0) else c
              archSum rest (a + x) (d + y) c1
    | _ => ArchLoop.raised

/-- `CacheManager.add_archive` (manager.py lines 137-173), over the archive
snapshot file contents (`none` for an absent file).  The record slice is
`data[7:len(data)-3]`; the extra commit scalar is
`int(old_data[-1].split()[4][:-1])`.  `Except.error ()` models a ValueError
escaping `add_archive` (only FileNotFoundError and IndexError are caught, at
manager.py line 172). -/
def add_archive (file : Option (List String)) :
    Except Unit (Int × Int × Int × Int × Int) :=
  match file with
  | none => Except.ok (0, 0, 0, 0, 0)
  | some old_data =>
    let data := (old_data.take (old_data.length - 3)).drop 7
    let contributed : Int := data.length
    match archSum data 0 0 0 with
    | ArchLoop.caught => Except.ok (0, 0, 0, 0, 0)
    | ArchLoop.raised => Except.error ()
    | ArchLoop.done a d c =>
      match old_data.getLast? with
      | none => Except.ok (0, 0, 0, 0, 0)
      | some last =>
        match (pySplit last)[4]? with
        | none => Except.ok (0, 0, 0, 0, 0)
        | some tok =>
          match pyInt? (pyDropLast tok) with
          | none => Except.error ()
          | some extra => Except.ok (a, d, a - d, c + extra, contributed)

/-- The record line and repository data under which the per-repository loop
body leaves the record untouched and never consults the walker: the stored
line splits into at least a digest and a commit-count token, and either the
stored digest differs from the freshly computed one, or the digests match and
the stored commit count parses to exactly the live total. -/
def SkipsWalk (hashFn : String → String) (e : Edge) (line : String) : Prop :=
  ∃ repoHash commitCount rest,
    pySplit line = repoHash :: commitCount :: rest ∧
    (repoHash ≠ hashFn e.nameWithOwner ∨
      (repoHash = hashFn e.nameWithOwner ∧
        ∃ n : Nat, e.totalCount = some n ∧ pyInt? commitCount = some (n : Int)))

/-! Concrete inputs used by witnesses and counterexamples.  The digest
function is instantiated with the identity function: every statement under
study depends on the digest only through equality tests between stored and
freshly computed digests, so any concrete injective-on-the-inputs function
exercises the same control flow as sha256 (qualified names contain no
whitespace, so they survive `pySplit` as single tokens). -/

/-- Concrete digest function for demonstrations. -/
def demoHash : String → String := fun s => s

/-- A remote whose every walk yields a single final page holding one commit
by the tracked account "me" with 7 additions and 3 deletions. -/
def demoRemote : Remote :=
  { ownerId := some "me",
    scripts := fun _ => [QueryResp.ok ⟨some ⟨[⟨some "me", 7, 3⟩], false⟩⟩] }

/-- A final page holding one commit by the tracked account "me" with
5 additions and 2 deletions. -/
def demoLastPage : Page := ⟨some ⟨[⟨some "me", 5, 2⟩], false⟩⟩

/-- A remote whose walk of repository 0 yields one final page (one commit by
"me", 7 additions, 3 deletions) and whose walk of any later repository fails
immediately with an APIError. -/
def demoRemoteFail : Remote :=
  { ownerId := some "me",
    scripts := fun j =>
      if j = 0 then [QueryResp.ok ⟨some ⟨[⟨some "me", 7, 3⟩], false⟩⟩]
      else [QueryResp.apiErr] }

/-! Helper lemmas about the walk and the per-repository loop. -/


/-- A failed walk always hands `force_close_file` exactly the comment block
followed by the record lines it was invoked with. -/
lemma process_loc_error_saved (oid : Option String) (data cc : List String) :
    ∀ (resp : List QueryResp) (a d m : Int) (saved : List String),
      process_loc_for_repo oid data cc resp a d m = some (Except.error saved) →
      saved = cc ++ data := by
  intro resp
  induction resp with
  | nil =>
    intro a d m saved h
    simp [process_loc_for_repo] at h
  | cons r rest ih =>
    intro a d m saved h
    cases r with
    | apiErr =>
      simp [process_loc_for_repo] at h
      exact h.symm
    | ok p =>
      simp only [process_loc_for_repo] at h
      cases hdb : p.defaultBranchRef with
      | none =>
        rw [hdb] at h
        simp at h
      | some hist =>
        rw [hdb] at h
        dsimp only at h
        by_cases hc : (!hist.edges.isEmpty && hist.hasNextPage) = true
        · rw [if_pos hc] at h
          exact ih _ _ _ _ h
        · rw [if_neg hc] at h
          simp at h

/-- Under `SkipsWalk`, the loop body returns the record lines unchanged, for
every remote. -/
lemma stepRepo_skips {hashFn : String → String} {e : Edge} {line : String}
    (rem : Remote) (idx : Nat) (cc data : List String)
    (hs : SkipsWalk hashFn e line) (hl : data[idx]? = some line) :
    stepRepo hashFn rem e idx cc data = Except.ok data := by
  obtain ⟨repoHash, commitCount, rest, hsplit, hcase⟩ := hs
  rcases hcase with hne | ⟨heq, n, htot, hint⟩
  · simp [stepRepo, hl, hsplit, hne]
  · simp [stepRepo, hl, hsplit, heq, htot, hint]

/-- The loop body depends on the remote only through its identity and the
script of its own index. -/
lemma stepRepo_congr {hashFn : String → String} {rem rem' : Remote}
    (e : Edge) (idx : Nat) (cc data : List String)
    (hoid : rem'.ownerId = rem.ownerId)
    (hscr : rem'.scripts idx = rem.scripts idx) :
    stepRepo hashFn rem' e idx cc data = stepRepo hashFn rem e idx cc data := by
  unfold stepRepo
  rw [hoid, hscr]

/-- A successful loop body modifies at most its own record position. -/
lemma stepRepo_get?_ne {hashFn : String → String} {rem : Remote} {e : Edge}
    {idx : Nat} {cc data data' : List String}
    (h : stepRepo hashFn rem e idx cc data = Except.ok data') :
    ∀ k, k ≠ idx → data'[k]? = data[k]? := by
  intro k hk
  unfold stepRepo at h
  repeat' split at h
  all_goals first
    | (injection h with h1; subst h1; rfl)
    | (injection h with h1; subst h1;
       exact List.getElem?_set_ne (fun hh => hk hh.symm))
    | (cases h)

/-- A failing loop body that re-raises an APIError has persisted exactly the
comment block followed by the record lines it was invoked with. -/
lemma stepRepo_apiError {hashFn : String → String} {rem : Remote} {e : Edge}
    {idx : Nat} {cc data saved : List String}
    (h : stepRepo hashFn rem e idx cc data = Except.error (CBErr.apiError saved)) :
    saved = cc ++ data := by
  unfold stepRepo at h
  repeat' split at h
  all_goals first
    | (injection h with h1
       injection h1 with h2
       subst h2
       exact process_loc_error_saved _ _ _ _ _ _ _ _ (by assumption))
    | (cases h)

/-- Once the loop has passed position `i`, its outcome no longer depends on
script `i`, and position `i` of the record lines is preserved. -/
lemma processRepos_after {hashFn : String → String} {rem rem' : Remote}
    {cc : List String} {i : Nat}
    (hoid : rem'.ownerId = rem.ownerId)
    (hscr : ∀ j, j ≠ i → rem'.scripts j = rem.scripts j) :
    ∀ (es : List Edge) (idx : Nat) (data : List String), i < idx →
      (processRepos hashFn rem' es idx cc data =
        processRepos hashFn rem es idx cc data) ∧
      (∀ d', processRepos hashFn rem es idx cc data = Except.ok d' →
        d'[i]? = data[i]?) := by
  intro es
  induction es with
  | nil =>
    intro idx data _
    refine ⟨rfl, ?_⟩
    intro d' hd'
    injection hd' with h1
    subst h1
    rfl
  | cons e rest ih =>
    intro idx data hi
    have hstep : stepRepo hashFn rem' e idx cc data =
        stepRepo hashFn rem e idx cc data :=
      stepRepo_congr e idx cc data hoid (hscr idx (by omega))
    simp only [processRepos, hstep]
    cases hr : stepRepo hashFn rem e idx cc data with
    | error err => exact ⟨rfl, fun d' hd' => by cases hd'⟩
    | ok data1 =>
      obtain ⟨ihEq, ihPres⟩ := ih (idx + 1) data1 (by omega)
      refine ⟨ihEq, ?_⟩
      intro d' hd'
      rw [ihPres d' hd', stepRepo_get?_ne hr i (by omega)]

/-- Main loop lemma: if the record at position `i` (with `idx ≤ i`, carrying
the edge `es[i - idx]`) satisfies `SkipsWalk`, then the loop's outcome does
not depend on script `i`, and any successful run leaves the record line at
position `i` unchanged. -/
lemma processRepos_skip {hashFn : String → String} (rem rem' : Remote)
    (cc : List String) {i : Nat} {e : Edge} {line : String}
    (hoid : rem'.ownerId = rem.ownerId)
    (hscr : ∀ j, j ≠ i → rem'.scripts j = rem.scripts j)
    (hskip : SkipsWalk hashFn e line) :
    ∀ (es : List Edge) (idx : Nat) (data : List String), idx ≤ i →
      es[i - idx]? = some e → data[i]? = some line →
      (processRepos hashFn rem' es idx cc data =
        processRepos hashFn rem es idx cc data) ∧
      (∀ d', processRepos hashFn rem es idx cc data = Except.ok d' →
        d'[i]? = some line) := by
  intro es
  induction es with
  | nil =>
    intro idx data _ he _
    simp at he
  | cons e0 rest ih =>
    intro idx data hle he hl
    rcases Nat.eq_or_lt_of_le hle with heq | hlt
    · subst heq
      have he0 : e0 = e := by
        simp [Nat.sub_self] at he
        exact he
      subst he0
      have hstep : ∀ r : Remote, stepRepo hashFn r e0 idx cc data = Except.ok data :=
        fun r => stepRepo_skips r idx cc data hskip hl
      simp only [processRepos, hstep]
      obtain ⟨aEq, aPres⟩ := processRepos_after hoid hscr rest (idx + 1) data (by omega)
      refine ⟨aEq, ?_⟩
      intro d' hd'
      rw [aPres d' hd', hl]
    · have hstep : stepRepo hashFn rem' e0 idx cc data =
          stepRepo hashFn rem e0 idx cc data :=
        stepRepo_congr e0 idx cc data hoid (hscr idx (by omega))
      have he' : rest[i - (idx + 1)]? = some e := by
        have h1 : i - idx = (i - (idx + 1)) + 1 := by omega
        rw [h1] at he
        simpa using he
      simp only [processRepos, hstep]
      cases hr : stepRepo hashFn rem e0 idx cc data with
      | error err => exact ⟨rfl, fun d' hd' => by cases hd'⟩
      | ok data1 =>
        have hl1 : data1[i]? = some line := by
          rw [stepRepo_get?_ne hr i (by omega), hl]
        exact ih (idx + 1) data1 (by omega) he' hl1

/-- If the loop fails by re-raising an APIError, there is a prefix of `k`
repositories whose processing succeeded, the persisted file is exactly the
comment block followed by the record lines as they stood after those `k`
repositories, and every record position not yet processed still holds its
original line. -/
lemma processRepos_apiError {hashFn : String → String} {rem : Remote}
    {cc saved : List String} :
    ∀ (es : List Edge) (idx : Nat) (data : List String),
      processRepos hashFn rem es idx cc data =
        Except.error (CBErr.apiError saved) →
      ∃ k d, k < es.length ∧
        processRepos hashFn rem (es.take k) idx cc data = Except.ok d ∧
        saved = cc ++ d ∧
        ∀ j, idx + k ≤ j → d[j]? = data[j]? := by
  intro es
  induction es with
  | nil =>
    intro idx data h
    cases h
  | cons e rest ih =>
    intro idx data h
    simp only [processRepos] at h
    cases hr : stepRepo hashFn rem e idx cc data with
    | error err =>
      rw [hr] at h
      injection h with h1
      subst h1
      refine ⟨0, data, by simp, ?_, stepRepo_apiError hr, fun j _ => rfl⟩
      simp [processRepos]
    | ok data1 =>
      rw [hr] at h
      obtain ⟨k, d, hk, hok, hsv, hpres⟩ := ih (idx + 1) data1 h
      refine ⟨k + 1, d, by simpa using Nat.succ_lt_succ hk, ?_, hsv, ?_⟩
      · simp only [List.take_succ_cons, processRepos, hr]
        exact hok
      · intro j hj
        rw [hpres j (by omega), stepRepo_get?_ne hr j (by omega)]

/-- Without a rebuild (record count matches, no forced refresh), `prepare`
returns the file's comment block and record lines unchanged, with the
`cached` flag still set. -/
lemma prepare_no_rebuild (hashFn : String → String) {lines : List String}
    {edges : List Edge} {cs : Nat}
    (h : ((lines.length : Int) - (cs : Int)) = (edges.length : Int)) :
    prepare hashFn (some lines) edges cs false =
      (lines.take cs, lines.drop cs, true) := by
  simp [prepare, readData, h]

/-- The source's accumulator-style totals loop equals the caller's offsets
plus the column-wise sums from zero. -/
lemma sumTotals_eq_fieldSums :
    ∀ (lines : List String) (a d : Int),
      sumTotals lines a d =
        (fieldSums lines).map fun s => (a + s.1, d + s.2) := by
  intro lines
  induction lines with
  | nil => intro a d; simp [sumTotals, fieldSums]
  | cons line rest ih =>
    intro a d
    simp only [sumTotals, fieldSums]
    cases hf : lineFields line with
    | none => rfl
    | some f =>
      dsimp only
      rw [ih]
      cases hs : fieldSums rest with
      | none => rfl
      | some s =>
        dsimp only [Option.map_some']
        refine congrArg some (Prod.ext ?_ ?_) <;> dsimp only <;> ring

/-- C7.  For every commit in a fetched history page, the page loop of
`process_loc_for_repo` adds the commit's additions and deletions and
increments the tracked commit count exactly when the commit's author identity
equals the tracked account's identity (a single `ownerId` resolved once and
threaded through the whole walk): the accumulated totals are the starting
accumulators plus the sums over precisely the commits matching the tracked
identity, so commits by any other author contribute nothing. -/
theorem walk_accumulates_only_tracked_author (oid : Option String)
    (cs : List Commit) (a d m : Int) :
    accumPage oid cs a d m =
      (a + ((cs.filter fun c => decide (c.authorUser = oid)).map Commit.additions).sum,
       d + ((cs.filter fun c => decide (c.authorUser = oid)).map Commit.deletions).sum,
       m + (((cs.filter fun c => decide (c.authorUser = oid)).length : Nat) : Int)) := by
  induction cs generalizing a d m with
  | nil => simp [accumPage]
  | cons c cs ih =>
    by_cases h : c.authorUser = oid
    · simp [accumPage, h, ih, List.filter_cons]
      refine ⟨by ring, by ring, ?_⟩
      ring
    · simp [accumPage, h, ih, List.filter_cons]

/-- C10.  When a fetched page reports the repository as having no default
branch, `process_loc_for_repo` returns exactly the additions, deletions and
commit count accumulated so far — its accumulator arguments `a`, `d`, `m`,
which on a recursive call carry the totals of all earlier pages — rather
than a zeroed result or an error. -/
theorem missing_default_branch_returns_accumulated (oid : Option String)
    (data cache_comment : List String) (rest : List QueryResp) (a d m : Int) :
    process_loc_for_repo oid data cache_comment
        (QueryResp.ok ⟨none⟩ :: rest) a d m =
      some (Except.ok (a, d, m)) := rfl

/-- C4, counterexample.  Pagination does depend on the content of the current
page: with a current page that has zero commits and `hasNextPage = true`, and
a further page available holding a matching commit with 5 additions and
2 deletions, the walk stops at the empty page and returns (0, 0, 0); the same
walk differing only in the current page's content (one commit by another
author) continues to the further page and returns (5, 2, 1). -/
theorem pagination_depends_on_page_content_cex :
    (process_loc_for_repo (some "me") [] []
        [QueryResp.ok ⟨some ⟨[], true⟩⟩, QueryResp.ok demoLastPage] 0 0 0 =
      some (Except.ok (0, 0, 0))) ∧
    (process_loc_for_repo (some "me") [] []
        [QueryResp.ok ⟨some ⟨[⟨some "bob", 9, 9⟩], true⟩⟩,
         QueryResp.ok demoLastPage] 0 0 0 =
      some (Except.ok (5, 2, 1))) := by
  exact ⟨rfl, rfl⟩

/-- C4, amended.  The walk continues to the next page exactly when the remote
signals more pages remain AND the current page holds at least one commit,
covering all three cases: a page containing commits — in particular one whose
commits all belong to other authors, so that zero commits match the tracked
identity — does not terminate the walk early when more pages remain; a page
containing commits with the remote signalling no more pages terminates the
walk, returning the totals accumulated through that page; and a page with no
commits at all terminates the walk even when the remote signals more
pages. -/
theorem pagination_requires_nonempty_page (oid : Option String)
    (data cache_comment : List String) (c : Commit) (cs : List Commit)
    (b : Bool) (rest : List QueryResp) (a d m : Int) :
    (process_loc_for_repo oid data cache_comment
        (QueryResp.ok ⟨some ⟨c :: cs, true⟩⟩ :: rest) a d m =
      process_loc_for_repo oid data cache_comment rest
        (accumPage oid (c :: cs) a d m).1
        (accumPage oid (c :: cs) a d m).2.1
        (accumPage oid (c :: cs) a d m).2.2) ∧
    (process_loc_for_repo oid data cache_comment
        (QueryResp.ok ⟨some ⟨c :: cs, false⟩⟩ :: rest) a d m =
      some (Except.ok (accumPage oid (c :: cs) a d m))) ∧
    (process_loc_for_repo oid data cache_comment
        (QueryResp.ok ⟨some ⟨[], b⟩⟩ :: rest) a d m =
      some (Except.ok (a, d, m))) := by
  exact ⟨rfl, rfl, rfl⟩

/-- C5, counterexample.  A run in which a repository is re-walked still
reports `cached = true`: with one repository whose stored record
"alice/x 1 0 0 0" matches on digest but differs on commit total (stored 1,
live 2), the history walker is invoked — replacing the script of repository 0
by the empty script makes the very same run fail, proving the walk was
consulted — and yet the run succeeds with final flag `true`, updating the
record from the walked page to "alice/x 2 1 7 3". -/
theorem cached_flag_true_despite_rewalk_cex :
    (cache_builder demoHash demoRemote (some ["hdr\n", "alice/x 1 0 0 0\n"])
        [⟨"alice/x", some 2⟩] 1 false 0 0 =
      Except.ok (["hdr\n", "alice/x 2 1 7 3\n"], (7, 3, 4, true))) ∧
    (cache_builder demoHash (setScript demoRemote 0 [])
        (some ["hdr\n", "alice/x 1 0 0 0\n"])
        [⟨"alice/x", some 2⟩] 1 false 0 0 =
      Except.error CBErr.scriptEnd) := by
  exact ⟨rfl, rfl⟩

/-- C6.  `add_archive` returns the all-zero result on an absent archive file,
but a malformed trailer can raise past the boundary: on an archive of seven
header lines, no record lines and three trailer lines whose final line is
"x y z w abc", the fifth trailer token minus its last character ("ab") is not
numeric, and the `int` conversion raises a ValueError that the handler —
which catches only FileNotFoundError and IndexError — lets escape. -/
theorem add_archive_malformed_trailer_raises :
    (add_archive none = Except.ok (0, 0, 0, 0, 0)) ∧
    (add_archive (some ["1\n", "2\n", "3\n", "4\n", "5\n", "6\n", "7\n",
        "t1\n", "t2\n", "x y z w abc\n"]) = Except.error ()) := by
  exact ⟨rfl, rfl⟩

/-- C2.  Whenever the ledger's record count (lines after the header) differs
from the repository count, or a rebuild is explicitly forced, the
read-and-rebuild stage of `cache_builder` truncates and rewrites the ledger
to the preserved header comment lines followed by exactly one zero sentinel
record per repository, in list order, with the `cached` flag cleared — and
`cache_builder`'s reconciliation then proceeds on exactly that rebuilt
ledger. -/
theorem cache_builder_rebuild_resets_records
    (hashFn : String → String) (rem : Remote) (file0 : Option (List String))
    (edges : List Edge) (cs : Nat) (force : Bool) (la ld : Int)
    (hcond : ((readData file0 cs).length : Int) - (cs : Int) ≠ (edges.length : Int) ∨
      force = true)
    (hhdr : cs ≤ (readData file0 cs).length) :
    prepare hashFn file0 edges cs force =
      ((readData file0 cs).take cs, edges.map (sentinelLine hashFn), false) ∧
    cache_builder hashFn rem file0 edges cs force la ld =
      reconcile hashFn rem edges ((readData file0 cs).take cs)
        (edges.map (sentinelLine hashFn)) la ld false := by
  have hp : prepare hashFn file0 edges cs force =
      ((readData file0 cs).take cs, edges.map (sentinelLine hashFn), false) := by
    have hrb : ((((readData file0 cs).length : Int) - (cs : Int)) !=
        (edges.length : Int) || force) = true := by
      rcases hcond with h | h
      · simp [bne_iff_ne, h]
      · simp [h]
    have hlen : ((readData file0 cs).take cs).length = cs := by
      simp [List.length_take, Nat.min_eq_left hhdr]
    unfold prepare
    dsimp only
    rw [hrb]
    dsimp only [flush_cache]
    rw [if_pos rfl, List.take_left' hlen, List.drop_left' hlen]
    rfl
  refine ⟨hp, ?_⟩
  unfold cache_builder
  rw [hp]

/-- C2, witness: one stored record against two repositories forces a rebuild
to two sentinel records under the preserved header. -/
theorem cache_builder_rebuild_resets_records_witness :
    prepare demoHash (some ["hdr\n", "zzz 0 0 0 0\n"])
        [⟨"a/x", some 1⟩, ⟨"b/y", some 1⟩] 1 false =
      (["hdr\n"], ["a/x 0 0 0 0\n", "b/y 0 0 0 0\n"], false) ∧
    cache_builder demoHash demoRemote (some ["hdr\n", "zzz 0 0 0 0\n"])
        [⟨"a/x", some 1⟩, ⟨"b/y", some 1⟩] 1 false 0 0 =
      reconcile demoHash demoRemote [⟨"a/x", some 1⟩, ⟨"b/y", some 1⟩]
        ["hdr\n"] ["a/x 0 0 0 0\n", "b/y 0 0 0 0\n"] 0 0 false := by
  exact cache_builder_rebuild_resets_records demoHash demoRemote
    (some ["hdr\n", "zzz 0 0 0 0\n"]) [⟨"a/x", some 1⟩, ⟨"b/y", some 1⟩]
    1 false 0 0 (Or.inl (by decide)) (by decide)

/-- C1.  If the remote API fails at any point during a history walk,
`cache_builder` re-raises the APIError carrying exactly the persisted ledger
state: the header comment lines followed by the record lines as they stood
when the failure struck — i.e. there is a prefix of `k` repositories whose
reconciliation completed and whose finalized records are all contained in the
persisted lines, while every record position from `k` onward still holds its
prior, unreconciled line. -/
theorem cache_builder_failure_persists_partial_ledger
    (hashFn : String → String) (rem : Remote) (file0 : Option (List String))
    (edges : List Edge) (cs : Nat) (force : Bool) (la ld : Int)
    (saved : List String)
    (h : cache_builder hashFn rem file0 edges cs force la ld =
      Except.error (CBErr.apiError saved)) :
    ∃ k d, k < edges.length ∧
      processRepos hashFn rem (edges.take k) 0
        (prepare hashFn file0 edges cs force).1
        (prepare hashFn file0 edges cs force).2.1 = Except.ok d ∧
      saved = (prepare hashFn file0 edges cs force).1 ++ d ∧
      ∀ j, k ≤ j → d[j]? = (prepare hashFn file0 edges cs force).2.1[j]? := by
  unfold cache_builder reconcile at h
  dsimp only at h
  split at h
  · injection h with h1
    subst h1
    obtain ⟨k, d, hk, hok, hsv, hpres⟩ :=
      processRepos_apiError edges 0 (prepare hashFn file0 edges cs force).2.1
        (by assumption)
    exact ⟨k, d, hk, hok, hsv, fun j hj => hpres j (by omega)⟩
  · split at h
    · cases h
    · cases h

/-- C1, witness: with repositories [a/x, b/y] both stale, a/x reconciled
first and b/y's walk failing, the persisted ledger holds the header, a/x's
updated record and b/y's prior record, and the failure propagates. -/
theorem cache_builder_failure_persists_partial_ledger_witness :
    ∃ k d, k < ([⟨"a/x", some 2⟩, ⟨"b/y", some 2⟩] : List Edge).length ∧
      processRepos demoHash demoRemoteFail
        (([⟨"a/x", some 2⟩, ⟨"b/y", some 2⟩] : List Edge).take k) 0
        (prepare demoHash (some ["hdr\n", "a/x 1 0 0 0\n", "b/y 1 0 0 0\n"])
          [⟨"a/x", some 2⟩, ⟨"b/y", some 2⟩] 1 false).1
        (prepare demoHash (some ["hdr\n", "a/x 1 0 0 0\n", "b/y 1 0 0 0\n"])
          [⟨"a/x", some 2⟩, ⟨"b/y", some 2⟩] 1 false).2.1 = Except.ok d ∧
      ["hdr\n", "a/x 2 1 7 3\n", "b/y 1 0 0 0\n"] =
        (prepare demoHash (some ["hdr\n", "a/x 1 0 0 0\n", "b/y 1 0 0 0\n"])
          [⟨"a/x", some 2⟩, ⟨"b/y", some 2⟩] 1 false).1 ++ d ∧
      ∀ j, k ≤ j → d[j]? =
        (prepare demoHash (some ["hdr\n", "a/x 1 0 0 0\n", "b/y 1 0 0 0\n"])
          [⟨"a/x", some 2⟩, ⟨"b/y", some 2⟩] 1 false).2.1[j]? := by
  exact cache_builder_failure_persists_partial_ledger demoHash demoRemoteFail
    (some ["hdr\n", "a/x 1 0 0 0\n", "b/y 1 0 0 0\n"])
    [⟨"a/x", some 2⟩, ⟨"b/y", some 2⟩] 1 false 0 0
    ["hdr\n", "a/x 2 1 7 3\n", "b/y 1 0 0 0\n"] rfl

/-- C3.  When the stored record at position `i` carries the digest freshly
computed from repository `i` and its stored commit total parses to exactly
the live total, the run never invokes the history walker for that repository
— replacing its response script by anything leaves the entire run's outcome
unchanged — and on any successful run the final ledger still holds the
original record line at that position. -/
theorem fresh_record_never_walked
    (hashFn : String → String) (rem : Remote) (lines : List String)
    (edges : List Edge) (cs : Nat) (la ld : Int) (i n : Nat) (e : Edge)
    (line repoHash commitCount : String) (rest : List String)
    (hlen : ((lines.length : Int) - (cs : Int)) = (edges.length : Int))
    (hedge : edges[i]? = some e)
    (hline : lines[cs + i]? = some line)
    (hsplit : pySplit line = repoHash :: commitCount :: rest)
    (hhash : repoHash = hashFn e.nameWithOwner)
    (htot : e.totalCount = some n)
    (hcnt : pyInt? commitCount = some (n : Int)) :
    (∀ s, cache_builder hashFn (setScript rem i s) (some lines) edges cs false la ld =
      cache_builder hashFn rem (some lines) edges cs false la ld) ∧
    (∀ fileF res, cache_builder hashFn rem (some lines) edges cs false la ld =
        Except.ok (fileF, res) →
      fileF[cs + i]? = some line) := by
  have hskip : SkipsWalk hashFn e line :=
    ⟨repoHash, commitCount, rest, hsplit, Or.inr ⟨hhash, n, htot, hcnt⟩⟩
  have hcs : cs ≤ lines.length := by omega
  have hp := prepare_no_rebuild hashFn hlen
  have hdata : (lines.drop cs)[i]? = some line := by
    rw [List.getElem?_drop]
    exact hline
  have hedge0 : edges[i - 0]? = some e := by simpa using hedge
  constructor
  · intro s
    have hscr : ∀ j, j ≠ i → (setScript rem i s).scripts j = rem.scripts j := by
      intro j hj
      simp [setScript, hj]
    obtain ⟨hEq, _⟩ := processRepos_skip rem (setScript rem i s)
      (lines.take cs) rfl hscr hskip
      edges 0 (lines.drop cs) (Nat.zero_le i) hedge0 hdata
    unfold cache_builder
    rw [hp]
    dsimp only
    unfold reconcile
    rw [hEq]
  · intro fileF res hok
    obtain ⟨_, hPres⟩ := processRepos_skip rem rem (lines.take cs)
      rfl (fun _ _ => rfl) hskip edges 0 (lines.drop cs) (Nat.zero_le i)
      hedge0 hdata
    unfold cache_builder at hok
    rw [hp] at hok
    unfold reconcile at hok
    dsimp only at hok
    split at hok
    · cases hok
    · rename_i dataF heqPR
      split at hok
      · cases hok
      · injection hok with h1
        have h2 : lines.take cs ++ dataF = fileF := congrArg Prod.fst h1
        rw [← h2]
        have htk : (lines.take cs).length = cs := by
          simp [List.length_take, Nat.min_eq_left hcs]
        have hle : (lines.take cs).length ≤ cs + i := by
          rw [htk]
          exact Nat.le_add_right cs i
        rw [List.getElem?_append_right hle, htk, Nat.add_sub_cancel_left]
        exact hPres dataF heqPR

/-- C3, witness: with one repository whose stored record matches on digest
and on commit total, emptying its walk script leaves the run unchanged —
the walker is never consulted — and the successful run leaves the record
line in place. -/
theorem fresh_record_never_walked_witness :
    (cache_builder demoHash (setScript demoRemote 0 [])
        (some ["hdr\n", "alice/x 2 0 0 0\n"]) [⟨"alice/x", some 2⟩] 1 false 0 0 =
      cache_builder demoHash demoRemote
        (some ["hdr\n", "alice/x 2 0 0 0\n"]) [⟨"alice/x", some 2⟩] 1 false 0 0) ∧
    (["hdr\n", "alice/x 2 0 0 0\n"] : List String)[1]? =
      some "alice/x 2 0 0 0\n" := by
  have h := fresh_record_never_walked demoHash demoRemote
    ["hdr\n", "alice/x 2 0 0 0\n"] [⟨"alice/x", some 2⟩] 1 0 0 0 2
    ⟨"alice/x", some 2⟩ "alice/x 2 0 0 0\n" "alice/x" "2" ["0", "0", "0"]
    (by decide) rfl rfl (by decide) rfl rfl (by decide)
  exact ⟨h.1 [], h.2 ["hdr\n", "alice/x 2 0 0 0\n"] (0, 0, 0, true) rfl⟩

/-- C9.  When the stored record at position `i` carries a digest different
from the one freshly computed from repository `i`, reconciliation leaves that
record untouched: the run never invokes the history walker for that
repository — replacing its response script by anything leaves the entire
run's outcome unchanged — and on any successful run the final ledger still
holds the original record line, unmodified in every field, at that
position. -/
theorem hash_mismatch_record_untouched
    (hashFn : String → String) (rem : Remote) (lines : List String)
    (edges : List Edge) (cs : Nat) (la ld : Int) (i : Nat) (e : Edge)
    (line repoHash commitCount : String) (rest : List String)
    (hlen : ((lines.length : Int) - (cs : Int)) = (edges.length : Int))
    (hedge : edges[i]? = some e)
    (hline : lines[cs + i]? = some line)
    (hsplit : pySplit line = repoHash :: commitCount :: rest)
    (hhash : repoHash ≠ hashFn e.nameWithOwner) :
    (∀ s, cache_builder hashFn (setScript rem i s) (some lines) edges cs false la ld =
      cache_builder hashFn rem (some lines) edges cs false la ld) ∧
    (∀ fileF res, cache_builder hashFn rem (some lines) edges cs false la ld =
        Except.ok (fileF, res) →
      fileF[cs + i]? = some line) := by
  have hskip : SkipsWalk hashFn e line :=
    ⟨repoHash, commitCount, rest, hsplit, Or.inl hhash⟩
  have hcs : cs ≤ lines.length := by omega
  have hp := prepare_no_rebuild hashFn hlen
  have hdata : (lines.drop cs)[i]? = some line := by
    rw [List.getElem?_drop]
    exact hline
  have hedge0 : edges[i - 0]? = some e := by simpa using hedge
  constructor
  · intro s
    have hscr : ∀ j, j ≠ i → (setScript rem i s).scripts j = rem.scripts j := by
      intro j hj
      simp [setScript, hj]
    obtain ⟨hEq, _⟩ := processRepos_skip rem (setScript rem i s)
      (lines.take cs) rfl hscr hskip
      edges 0 (lines.drop cs) (Nat.zero_le i) hedge0 hdata
    unfold cache_builder
    rw [hp]
    dsimp only
    unfold reconcile
    rw [hEq]
  · intro fileF res hok
    obtain ⟨_, hPres⟩ := processRepos_skip rem rem (lines.take cs)
      rfl (fun _ _ => rfl) hskip edges 0 (lines.drop cs) (Nat.zero_le i)
      hedge0 hdata
    unfold cache_builder at hok
    rw [hp] at hok
    unfold reconcile at hok
    dsimp only at hok
    split at hok
    · cases hok
    · rename_i dataF heqPR
      split at hok
      · cases hok
      · injection hok with h1
        have h2 : lines.take cs ++ dataF = fileF := congrArg Prod.fst h1
        rw [← h2]
        have htk : (lines.take cs).length = cs := by
          simp [List.length_take, Nat.min_eq_left hcs]
        have hle : (lines.take cs).length ≤ cs + i := by
          rw [htk]
          exact Nat.le_add_right cs i
        rw [List.getElem?_append_right hle, htk, Nat.add_sub_cancel_left]
        exact hPres dataF heqPR

/-- C9, witness: a stored record "zzz 1 0 0 0" against repository alice/x
(fresh digest "alice/x") is left untouched, and emptying the repository's
walk script leaves the run unchanged. -/
theorem hash_mismatch_record_untouched_witness :
    (cache_builder demoHash (setScript demoRemote 0 [])
        (some ["hdr\n", "zzz 1 0 0 0\n"]) [⟨"alice/x", some 2⟩] 1 false 0 0 =
      cache_builder demoHash demoRemote
        (some ["hdr\n", "zzz 1 0 0 0\n"]) [⟨"alice/x", some 2⟩] 1 false 0 0) ∧
    (["hdr\n", "zzz 1 0 0 0\n"] : List String)[1]? = some "zzz 1 0 0 0\n" := by
  have h := hash_mismatch_record_untouched demoHash demoRemote
    ["hdr\n", "zzz 1 0 0 0\n"] [⟨"alice/x", some 2⟩] 1 0 0 0
    ⟨"alice/x", some 2⟩ "zzz 1 0 0 0\n" "zzz" "1" ["0", "0", "0"]
    (by decide) rfl rfl (by decide) (by decide)
  exact ⟨h.1 [], h.2 ["hdr\n", "zzz 1 0 0 0\n"] (0, 0, 0, true) rfl⟩

/-- C5, amended.  The boolean returned as the last element of
`cache_builder`'s result is true exactly when no full rebuild was performed
in this run — that is, the ledger's record count matched the repository
count and no rebuild was forced.  Per-repository history re-walks do not
clear the flag. -/
theorem cached_flag_equals_no_rebuild
    (hashFn : String → String) (rem : Remote) (file0 : Option (List String))
    (edges : List Edge) (cs : Nat) (force : Bool) (la ld : Int)
    (fileF : List String) (A D N : Int) (flag : Bool)
    (h : cache_builder hashFn rem file0 edges cs force la ld =
      Except.ok (fileF, (A, D, N, flag))) :
    flag = !((((readData file0 cs).length : Int) - (cs : Int)) !=
      (edges.length : Int) || force) := by
  unfold cache_builder reconcile at h
  dsimp only at h
  split at h
  · cases h
  · split at h
    · cases h
    · injection h with h1
      have h2 := congrArg (fun x : List String × Int × Int × Int × Bool =>
        x.2.2.2.2) h1
      dsimp only at h2
      rw [← h2]
      simp [prepare]

/-- C5, amended, witness: a run with one stale repository re-walked (see the
counterexample input) still satisfies the amended law: its flag `true`
equals the negation of the rebuild condition. -/
theorem cached_flag_equals_no_rebuild_witness :
    (true : Bool) = !((((readData (some ["hdr\n", "alice/x 1 0 0 0\n"]) 1).length : Int) -
      ((1 : Nat) : Int)) != ((([⟨"alice/x", some 2⟩] : List Edge)).length : Int) || false) := by
  exact cached_flag_equals_no_rebuild demoHash demoRemote
    (some ["hdr\n", "alice/x 1 0 0 0\n"]) [⟨"alice/x", some 2⟩] 1 false 0 0
    ["hdr\n", "alice/x 2 1 7 3\n"] 7 3 4 true rfl

/-- C8.  On every successfully completing run, the additions and deletions
in the aggregate returned by `cache_builder` equal the caller-supplied
initial offsets plus the column-wise sums of the additions and deletions
fields over every record line of the ledger's final contents (the lines
after the comment block of the written file), and the third element is
additions minus deletions — regardless of which records were re-walked. -/
theorem aggregate_equals_offsets_plus_ledger_sums
    (hashFn : String → String) (rem : Remote) (file0 : Option (List String))
    (edges : List Edge) (cs : Nat) (force : Bool) (la ld : Int)
    (fileF : List String) (A D N : Int) (flag : Bool)
    (h : cache_builder hashFn rem file0 edges cs force la ld =
      Except.ok (fileF, (A, D, N, flag)))
    (hcs : ((prepare hashFn file0 edges cs force).1).length = cs) :
    ∃ s : Int × Int, fieldSums (fileF.drop cs) = some s ∧
      A = la + s.1 ∧ D = ld + s.2 ∧ N = A - D := by
  unfold cache_builder reconcile at h
  dsimp only at h
  split at h
  · cases h
  · rename_i dataF heqPR
    split at h
    · cases h
    · rename_i s0 heqST
      injection h with h1
      simp only [Prod.mk.injEq] at h1
      obtain ⟨hfile, hA, hD, hN, hflag⟩ := h1
      rw [sumTotals_eq_fieldSums] at heqST
      cases hfs : fieldSums dataF with
      | none =>
        rw [hfs] at heqST
        cases heqST
      | some t =>
        rw [hfs] at heqST
        injection heqST with h3
        refine ⟨t, ?_, ?_, ?_, ?_⟩
        · rw [← hfile, List.drop_left' hcs]
          exact hfs
        · rw [← hA, ← h3]
        · rw [← hD, ← h3]
        · rw [← hN, ← hA, ← hD]

/-- C8, witness: a run with offsets (10, 20) and one re-walked repository
returns (17, 23, -6), matching the offsets plus the column sums (7, 3) over
the final ledger's single record line. -/
theorem aggregate_equals_offsets_plus_ledger_sums_witness :
    ∃ s : Int × Int,
      fieldSums ((["hdr\n", "alice/x 2 1 7 3\n"] : List String).drop 1) = some s ∧
      (17 : Int) = 10 + s.1 ∧ (23 : Int) = 20 + s.2 ∧ (-6 : Int) = 17 - 23 := by
  exact aggregate_equals_offsets_plus_ledger_sums demoHash demoRemote
    (some ["hdr\n", "alice/x 1 0 0 0\n"]) [⟨"alice/x", some 2⟩] 1 false 10 20
    ["hdr\n", "alice/x 2 1 7 3\n"] 17 23 (-6) true rfl rfl

end GhStats
